import Mathlib

/-!
Verification of the plato-sl-cli schema pipeline.

This file gives a shallow embedding, in Lean, of the core logic of the
plato-sl-cli repository and proves (or refutes) the specification claims
about it.  Embedded components:

* `internal/cue` — `Introspect`, `inferType` (generator.go part 3),
  `extractPath`, `cleanMessage`, `generateSuggestion` (evaluator.go part 3),
  and the loader's unification fold (`LoadPaths`, the flat fallback of
  `LoadDir`, evaluator.go part 2);
* `internal/generator` — the `Registry` (`Register`, `Get`);
* `internal/generator/jsonschema` — `extractDefinitions` and `Generate`.

Go strings are modelled as lists of characters (`GoStr`); Go maps as
association lists whose iteration order is arbitrary, so properties that
hold "for the map" are proved up to permutation of the entry list.  JSON
serialization models `encoding/json`, which emits map keys in sorted
order.  `unicode`-package predicates (`unicode.IsSpace`, `strings.ToLower`)
are modelled exactly on the ASCII/Latin-1 range, which covers every
character the repository's own fixed strings use.
-/

/-- A Go string, modelled as its list of characters. -/
abbrev GoStr := List Char

/-- Convert a Lean string literal to the `GoStr` model. -/
def goStr (s : String) : GoStr := s.toList

/-- First-match association-list lookup, the model of reading a Go map
entry `m[k]`. -/
def goLookup {α : Type} (k : GoStr) : List (GoStr × α) → Option α
  | [] => none
  | kv :: rest => if kv.1 = k then some kv.2 else goLookup k rest

/-- The kind bit-set of a CUE value (`cue.Kind`), restricted to the seven
kinds `inferType` inspects: a structure of one flag per kind. -/
structure Kind where
  hasString : Bool
  hasInt : Bool
  hasFloat : Bool
  hasNumber : Bool
  hasBool : Bool
  hasList : Bool
  hasStruct : Bool
deriving DecidableEq, Repr

/-- Embedding of `inferType` (generator.go): a `switch` on
`val.IncompleteKind()` testing the kind bits in a fixed textual order and
returning the first match, `"unknown"` when no bit is set. -/
def inferType (k : Kind) : GoStr :=
  if k.hasString then goStr "string"
  else if k.hasInt then goStr "int"
  else if k.hasFloat then goStr "float"
  else if k.hasNumber then goStr "number"
  else if k.hasBool then goStr "bool"
  else if k.hasList then goStr "list"
  else if k.hasStruct then goStr "struct"
  else goStr "unknown"

/-- The spec's priority table for `SemanticType` inference: kinds listed
from highest to lowest priority, each with its name. -/
def kindPriorityTable : List ((Kind → Bool) × GoStr) :=
  [(fun k => k.hasString, goStr "string"),
   (fun k => k.hasInt, goStr "int"),
   (fun k => k.hasFloat, goStr "float"),
   (fun k => k.hasNumber, goStr "number"),
   (fun k => k.hasBool, goStr "bool"),
   (fun k => k.hasList, goStr "list"),
   (fun k => k.hasStruct, goStr "struct")]

/-- The spec's description of type inference: the first kind in the fixed
priority order whose bit is set, `"unknown"` when none is. -/
def specInferType (k : Kind) : GoStr :=
  ((kindPriorityTable.find? fun row => row.1 k).map Prod.snd).getD (goStr "unknown")

/-- One field yielded by `val.Fields(cue.Optional(true), cue.Definitions(true))`:
its selector label, kind mask and optional flag. -/
structure IterField where
  label : GoStr
  kind : Kind
  optional : Bool
deriving DecidableEq, Repr

/-- Embedding of `FieldInfo` (generator.go, introspection part); the Go
field `Type` is spelled `typ` here because `Type` is reserved in Lean. -/
structure FieldInfo where
  name : GoStr
  typ : GoStr
  optional : Bool
  path : GoStr
deriving DecidableEq, Repr

/-- Embedding of `SchemaInfo`. -/
structure SchemaInfo where
  Fields : List FieldInfo
  Definitions : List GoStr
deriving DecidableEq, Repr

/-- The test `strings.HasPrefix(label, "#")`, equivalently
`len(key) > 0 && key[0] == '#'`: does the string start with the CUE
definition marker. -/
def hasDefMarker (l : GoStr) : Bool :=
  match l with
  | [] => false
  | c :: _ => c == '#'

/-- Embedding of `Introspect` (generator.go, introspection part): walk
the field iterator in order; a label carrying the definition marker is
appended (as is) to `Definitions`, and every field — definition or not —
is appended to `Fields` with `Name` and `Path` both the selector string. -/
def Introspect : List IterField → SchemaInfo
  | [] => ⟨[], []⟩
  | f :: rest =>
    let r := Introspect rest
    ⟨⟨f.label, inferType f.kind, f.optional, f.label⟩ :: r.Fields,
     (if hasDefMarker f.label then [f.label] else []) ++ r.Definitions⟩

/-- A concrete kind mask used in witnesses: a plain string value. -/
def stringKind : Kind := ⟨true, false, false, false, false, false, false⟩

/-- C4: the inferred semantic type is the first kind, in the fixed
priority order string > int > float > number > bool > list > struct,
whose bit is set in the kind mask, and it is `"unknown"` exactly when no
bit is set. -/
theorem inferType_matches_priority_table (k : Kind) :
    inferType k = specInferType k ∧
    (inferType k = goStr "unknown" ↔
      k.hasString = false ∧ k.hasInt = false ∧ k.hasFloat = false ∧
      k.hasNumber = false ∧ k.hasBool = false ∧ k.hasList = false ∧
      k.hasStruct = false) := by
  obtain ⟨a, b, c, d, e, f, g⟩ := k
  cases a <;> cases b <;> cases c <;> cases d <;> cases e <;> cases f <;> cases g <;>
    exact ⟨by decide, by decide⟩

/-- C1 fails on the code: `Introspect` appends the label to `Definitions`
with the `#` marker intact.  On a single definition field labelled
`#Foo`, the stored string is `#Foo`, which begins with `#` and differs
from the stripped label `Foo`. -/
theorem introspect_keeps_marker_counterexample :
    (Introspect [⟨goStr "#Foo", stringKind, false⟩]).Definitions = [goStr "#Foo"] ∧
    hasDefMarker (goStr "#Foo") = true ∧
    (Introspect [⟨goStr "#Foo", stringKind, false⟩]).Definitions ≠ [goStr "Foo"] := by
  refine ⟨by decide, by decide, by decide⟩

/-- C1 amended: `Introspect` appends to `Definitions` exactly the labels
that carry the definition marker, keeping the marker (so every stored
string begins with `#`). -/
theorem introspect_definitions_are_marked_labels (fs : List IterField) :
    (Introspect fs).Definitions = (fs.map IterField.label).filter hasDefMarker := by
  induction fs with
  | nil => rfl
  | cons f rest ih =>
    simp only [Introspect, List.map_cons, List.filter_cons]
    cases h : hasDefMarker f.label <;> simp [h, ih]

/-- C10: every label recorded in `Definitions` also appears, with the
identical string, as the `Name` of a `FieldInfo` in `Fields`: definition
fields are collected in addition to, not instead of, the field list. -/
theorem introspect_definitions_are_fields (fs : List IterField) (l : GoStr)
    (hl : l ∈ (Introspect fs).Definitions) :
    ∃ fi ∈ (Introspect fs).Fields, fi.name = l := by
  induction fs with
  | nil => simp [Introspect] at hl
  | cons f rest ih =>
    simp only [Introspect, List.mem_append] at hl
    rcases hl with hl | hl
    · refine ⟨⟨f.label, inferType f.kind, f.optional, f.label⟩, by simp [Introspect], ?_⟩
      by_cases h : hasDefMarker f.label = true
      · simp [h] at hl
        simp [hl]
      · simp [h] at hl
    · obtain ⟨fi, hmem, hname⟩ := ih hl
      exact ⟨fi, by simp [Introspect, hmem], hname⟩

/-- Witness for C10 at a concrete iterator: the definition label `#A` is
the name of a recorded field. -/
theorem introspect_definitions_are_fields_witness :
    ∃ fi ∈ (Introspect [⟨goStr "#A", stringKind, false⟩]).Fields, fi.name = goStr "#A" :=
  introspect_definitions_are_fields [⟨goStr "#A", stringKind, false⟩] (goStr "#A") (by decide)

/-- Per-character model of `strings.ToLower`, exact on ASCII: map an
upper-case letter to its lower-case form and leave everything else. -/
def goLowerChar (c : Char) : Char :=
  if 'A' ≤ c ∧ c ≤ 'Z' then Char.ofNat (c.toNat + 32) else c

/-- Model of `strings.ToLower` on a whole string. -/
def goLower (s : GoStr) : GoStr := s.map goLowerChar

/-- Does `pat` start the string `s` (the scanning step used by
`strings.Contains` and `strings.Index`). -/
def startsList : GoStr → GoStr → Bool
  | [], _ => true
  | _ :: _, [] => false
  | p :: ps, c :: cs => p == c && startsList ps cs

/-- Model of `strings.Contains s pat`: some suffix of `s` starts with
`pat`. -/
def goContains : GoStr → GoStr → Bool
  | [], pat => startsList pat []
  | a :: rest, pat => startsList pat (a :: rest) || goContains rest pat

/-- Model of `strings.Index s pat`: byte index of the first occurrence of
`pat` in `s`, `-1` when absent (every character of the repository's fixed
needles is one byte in UTF-8, so character index equals byte index). -/
def goIndex : GoStr → GoStr → Int
  | [], pat => if startsList pat [] then 0 else -1
  | a :: rest, pat =>
    if startsList pat (a :: rest) then 0
    else if goIndex rest pat < 0 then -1 else goIndex rest pat + 1

/-- Model of `unicode.IsSpace`, exact on the Latin-1 range (the only
characters Go special-cases outside tables: TAB through CR, space, NEL,
NBSP). -/
def goIsSpace (c : Char) : Bool :=
  c == ' ' || c == '\t' || c == '\n' || c == '\x0b' || c == '\x0c' ||
  c == '\r' || c == '\x85' || c == '\xa0'

/-- Model of `strings.TrimSpace`: drop leading and trailing space
characters. -/
def goTrimSpace (s : GoStr) : GoStr :=
  ((s.dropWhile goIsSpace).reverse.dropWhile goIsSpace).reverse

/-- Embedding of `extractPath` (evaluator.go): take the text before the
first `:` when that colon exists at a positive index, trim surrounding
space, and return it unless it still contains a space; otherwise return
the empty string. -/
def extractPath (msg : GoStr) : GoStr :=
  let idx := goIndex msg (goStr ":")
  if 0 < idx then
    let path := goTrimSpace (msg.take idx.toNat)
    if goContains path (goStr " ") then [] else path
  else []

/-- Embedding of `generateSuggestion` (evaluator.go): case-insensitive
keyword scan of the error message, first match wins. -/
def generateSuggestion (msg : GoStr) : GoStr :=
  let lower := goLower msg
  if goContains lower (goStr "concrete") then
    goStr "Ensure all fields have concrete values (no unresolved references)"
  else if goContains lower (goStr "conflicting") || goContains lower (goStr "conflict") then
    goStr "Check for duplicate or contradicting field definitions"
  else if goContains lower (goStr "incomplete") then
    goStr "Some required fields may be missing or undefined"
  else if goContains lower (goStr "reference") then
    goStr "Check that all referenced fields and definitions exist"
  else if goContains lower (goStr "cannot use") then
    goStr "Type mismatch - check that values match their expected types"
  else []

/-- The spec's keyword table for suggestions, in the order the validator
consults it: keyword alternatives paired with the suggestion text. -/
def suggestionTable : List (List GoStr × GoStr) :=
  [([goStr "concrete"], goStr "Ensure all fields have concrete values (no unresolved references)"),
   ([goStr "conflicting", goStr "conflict"], goStr "Check for duplicate or contradicting field definitions"),
   ([goStr "incomplete"], goStr "Some required fields may be missing or undefined"),
   ([goStr "reference"], goStr "Check that all referenced fields and definitions exist"),
   ([goStr "cannot use"], goStr "Type mismatch - check that values match their expected types")]

/-- Table-driven restatement of suggestion selection: the first table row
one of whose keywords occurs in the lowered message, empty when none. -/
def specSuggestion (msg : GoStr) : GoStr :=
  ((suggestionTable.find? fun row => row.1.any fun kw => goContains (goLower msg) kw).map
    Prod.snd).getD []

/-- C8 fails on the code as universally stated: keyword categories are
not independent.  The message `concrete conflict` contains the keyword
`conflict`, yet the validator returns the `concrete` suggestion, not the
duplicate-or-contradicting-definitions suggestion. -/
theorem suggestion_priority_counterexample :
    goContains (goLower (goStr "concrete conflict")) (goStr "conflict") = true ∧
    generateSuggestion (goStr "concrete conflict") =
      goStr "Ensure all fields have concrete values (no unresolved references)" ∧
    generateSuggestion (goStr "concrete conflict") ≠
      goStr "Check for duplicate or contradicting field definitions" := by
  refine ⟨by decide, by decide, by decide⟩

/-- C8 amended: the suggestion is selected by case-insensitive substring
match against the fixed keyword table consulted in priority order
(concrete, then conflict(ing), then incomplete, then reference, then
cannot use) — the first row with an occurring keyword wins — and a
message containing none of the keywords yields the empty suggestion. -/
theorem suggestion_matches_keyword_table (msg : GoStr) :
    generateSuggestion msg = specSuggestion msg ∧
    (generateSuggestion msg = [] ↔
      ∀ row ∈ suggestionTable, ∀ kw ∈ row.1, goContains (goLower msg) kw = false) := by
  cases h1 : goContains (goLower msg) (goStr "concrete") <;>
  cases h2 : goContains (goLower msg) (goStr "conflicting") <;>
  cases h3 : goContains (goLower msg) (goStr "conflict") <;>
  cases h4 : goContains (goLower msg) (goStr "incomplete") <;>
  cases h5 : goContains (goLower msg) (goStr "reference") <;>
  cases h6 : goContains (goLower msg) (goStr "cannot use")
  all_goals simp [generateSuggestion, specSuggestion, suggestionTable, h1, h2, h3, h4, h5, h6]
  all_goals decide

/-- Relation between `strings.Index` for a one-character needle and
`takeWhile`: when the character occurs, its first index is the length of
the longest needle-free leading segment; otherwise the index is `-1`. -/
theorem goIndex_single_char (c : Char) (s : GoStr) :
    goIndex s [c] =
      (if goContains s [c] then ((s.takeWhile fun a => a != c).length : Int) else -1) := by
  induction s with
  | nil => rfl
  | cons a rest ih =>
    cases hca : (c == a)
    · have hstart : startsList [c] (a :: rest) = false := by
        simp [startsList, hca]
      have hane : (a != c) = true := by
        simp only [bne_iff_ne]
        intro h
        simp [h] at hca
      rw [goIndex, goContains, hstart, ih]
      cases hcr : goContains rest [c]
      · simp [hcr]
      · have hlen : List.takeWhile (fun x => x != c) (a :: rest) =
            a :: List.takeWhile (fun x => x != c) rest := by
          simp [List.takeWhile_cons, hane]
        have hnn : ¬ ((List.takeWhile (fun x => x != c) rest).length : Int) < 0 := by
          omega
        simp [hcr, hlen, hnn]
    · have haeq : c = a := beq_iff_eq.mp hca
      subst haeq
      have hstart : startsList [c] (c :: rest) = true := by
        simp [startsList]
      rw [goIndex, goContains, hstart]
      simp [List.takeWhile_cons_of_neg]

/-- The spec-level reading of path extraction, phrased without index
arithmetic: when the message contains a colon that is not its first
character, the candidate path is the space-trimmed text before the first
colon, kept only if it contains no space; in every other case the path is
empty. -/
def specExtractPath (msg : GoStr) : GoStr :=
  if goContains msg (goStr ":") && !(startsList (goStr ":") msg) then
    let p := goTrimSpace (msg.takeWhile fun c => c != ':')
    if goContains p (goStr " ") then [] else p
  else []

/-- C9 fails on the code: the pre-colon prefix of `" a:b"` is `" a"`,
which contains whitespace, so the claim demands an empty path — but the
validator trims the prefix before its space check and returns `"a"`. -/
theorem extractPath_trim_counterexample :
    ((goStr " a:b").takeWhile fun c => c != ':') = goStr " a" ∧
    goContains (goStr " a") (goStr " ") = true ∧
    extractPath (goStr " a:b") = goStr "a" ∧
    extractPath (goStr " a:b") ≠ [] := by
  refine ⟨by decide, by decide, by decide, by decide⟩

/-- C9 amended: the extracted path is the space-trimmed text before the
first colon exactly when the message has a colon beyond position zero and
that trimmed prefix contains no space character; otherwise (no colon,
leading colon, or a space surviving inside the trimmed prefix) it is
empty. -/
theorem extractPath_characterization (msg : GoStr) :
    extractPath msg = specExtractPath msg := by
  have hidx := goIndex_single_char ':' msg
  have hcolon : goStr ":" = [':'] := rfl
  simp only [extractPath, specExtractPath, hcolon]
  cases hc : goContains msg [':']
  · rw [hc] at hidx
    simp only [Bool.false_eq_true, if_false] at hidx
    simp [hidx, hc]
  · rw [hc] at hidx
    simp only [if_true] at hidx
    cases msg with
    | nil => simp [goContains, startsList] at hc
    | cons a rest =>
      by_cases ha : a = ':'
      · subst ha
        have h0 : List.takeWhile (fun x => x != ':') (':' :: rest) = [] := by
          simp [List.takeWhile_cons]
        rw [hidx, h0]
        simp [startsList]
      · have hane : (a != ':') = true := by simp [ha]
        have h1 : (':' == a) = false := by
          simp only [beq_eq_false_iff_ne]
          exact fun h => ha h.symm
        have hstart : startsList [':'] (a :: rest) = false := by
          simp [startsList, h1]
        have hlen : List.takeWhile (fun x => x != ':') (a :: rest) =
            a :: List.takeWhile (fun x => x != ':') rest := by
          simp [List.takeWhile_cons, hane]
        have hpre : List.takeWhile (fun x => x != ':') (a :: rest) =
            (a :: rest).take (List.takeWhile (fun x => x != ':') (a :: rest)).length :=
          List.prefix_iff_eq_take.mp (List.takeWhile_prefix _)
        have hpos : (0 : Int) < ((List.takeWhile (fun x => x != ':') (a :: rest)).length : Int) := by
          simp only [hlen, List.length_cons]
          omega
        rw [hidx, if_pos hpos]
        rw [Int.toNat_natCast, ← hpre]
        simp [hc, hstart]

/-- A generator as the `Registry` sees it: its `Name()` string plus an
identity distinguishing different implementations. -/
structure Generator where
  name : GoStr
  id : Nat
deriving DecidableEq, Repr

/-- Embedding of `Registry` (the generator registry source): the
name-to-generator map behind the reader/writer lock, as an association
list. -/
structure Registry where
  generators : List (GoStr × Generator)
deriving DecidableEq, Repr

/-- Embedding of `Registry.Register`: fail (and leave the map untouched)
when the generator's name is already present, otherwise insert. -/
def Registry.Register (r : Registry) (gen : Generator) : Option GoStr × Registry :=
  match goLookup gen.name r.generators with
  | some _ => (some (goStr "generator " ++ gen.name ++ goStr " already registered"), r)
  | none => (none, ⟨r.generators ++ [(gen.name, gen)]⟩)

/-- Embedding of `Registry.Get`: look the name up, failing when absent. -/
def Registry.Get (r : Registry) (name : GoStr) : Except GoStr Generator :=
  match goLookup name r.generators with
  | some g => Except.ok g
  | none => Except.error (goStr "generator " ++ name ++ goStr " not found")

/-- C5: registering a generator whose name is already mapped fails with
the duplicate-name error and performs no overwrite — the previously
mapped generator is still what the name resolves to — and getting a name
that is not in the map fails with the not-found error. -/
theorem registry_duplicate_and_missing (r : Registry) (gen g₀ : Generator)
    (r' : Registry) (nm : GoStr)
    (hdup : goLookup gen.name r.generators = some g₀)
    (hmiss : goLookup nm r'.generators = none) :
    (Registry.Register r gen).1 =
      some (goStr "generator " ++ gen.name ++ goStr " already registered") ∧
    (Registry.Register r gen).2 = r ∧
    goLookup gen.name (Registry.Register r gen).2.generators = some g₀ ∧
    Registry.Get r' nm = Except.error (goStr "generator " ++ nm ++ goStr " not found") := by
  refine ⟨?_, ?_, ?_, ?_⟩ <;> simp [Registry.Register, Registry.Get, hdup, hmiss]

/-- The generator registered first in the witness registry. -/
def jsonGen : Generator := ⟨goStr "jsonschema", 0⟩

/-- A second, distinct generator that reuses the same name. -/
def dupGen : Generator := ⟨goStr "jsonschema", 1⟩

/-- A registry already holding `jsonGen` under its name. -/
def regSample : Registry := ⟨[(goStr "jsonschema", jsonGen)]⟩

/-- Witness for C5: re-registering the name `jsonschema` fails and keeps
the original generator; getting the unregistered name `typescript`
fails. -/
theorem registry_duplicate_and_missing_witness :
    (Registry.Register regSample dupGen).1 =
      some (goStr "generator " ++ dupGen.name ++ goStr " already registered") ∧
    (Registry.Register regSample dupGen).2 = regSample ∧
    goLookup dupGen.name (Registry.Register regSample dupGen).2.generators = some jsonGen ∧
    Registry.Get regSample (goStr "typescript") =
      Except.error (goStr "generator " ++ goStr "typescript" ++ goStr " not found") :=
  registry_duplicate_and_missing regSample dupGen jsonGen regSample (goStr "typescript")
    (by decide) (by decide)

/-- Modelled from the spec: the schema engine's value abstraction
(`cue.Value`), which is not part of this repository.  A value is either a
struct assigning concrete values to fields (`decodeConcrete`) or a value
carrying an error; `unify` of two structs fails exactly when some field
is assigned two different concrete values (spec §3, §4.2: "Unifying two
sources that assign different concrete values to the same field must
fail with UnifyError, never silently pick one side"). -/
inductive CueValue where
  | struct (fields : List (GoStr × Int))
  | errVal (msg : GoStr)
deriving DecidableEq, Repr

/-- The engine's `Err()` capability: the error carried by a value. -/
def CueValue.err : CueValue → Option GoStr
  | .struct _ => none
  | .errVal m => some m

/-- Scan the first struct's fields for one assigned a different concrete
value by the second struct. -/
def findConflict : List (GoStr × Int) → List (GoStr × Int) → Option GoStr
  | [], _ => none
  | kv :: rest, f₂ =>
    match goLookup kv.1 f₂ with
    | some w => if w = kv.2 then findConflict rest f₂ else some kv.1
    | none => findConflict rest f₂

/-- Modelled from the spec: the engine's `unify`.  Errors propagate; two
structs unify to their merged field set, or to an error value when a
field is assigned conflicting concrete values. -/
def CueValue.unify : CueValue → CueValue → CueValue
  | .errVal m, _ => .errVal m
  | .struct _, .errVal m => .errVal m
  | .struct f₁, .struct f₂ =>
    match findConflict f₁ f₂ with
    | some k => .errVal (goStr "conflicting values for field " ++ k)
    | none => .struct (f₁ ++ f₂.filter fun kv => (goLookup kv.1 f₁).isNone)

/-- The loader's unification loop (evaluator.go, `LoadPaths` and the flat
fallback of `LoadDir`): fold `Unify` left to right over the loaded
values, aborting with the context-labelled error as soon as the running
result carries one. -/
def unifyAll (first : CueValue) (rest : List CueValue) (errCtx : GoStr) :
    Except GoStr CueValue :=
  match rest with
  | [] => .ok first
  | v :: vs =>
    let r := first.unify v
    match r.err with
    | some e => .error (errCtx ++ e)
    | none => unifyAll r vs errCtx

/-- Embedding of `Loader.LoadPaths` on already-loaded values: empty input
is an error, otherwise the unification fold with the
`failed to unify values` context. -/
def LoadPaths (values : List CueValue) : Except GoStr CueValue :=
  match values with
  | [] => .error (goStr "no paths provided")
  | v :: vs => unifyAll v vs (goStr "failed to unify values: ")

/-- Embedding of the flat fallback of `Loader.LoadDir` on the values
compiled from the directory's files: no file is an error, otherwise the
unification fold with the directory-naming context. -/
def LoadDirFlat (dir : GoStr) (values : List CueValue) : Except GoStr CueValue :=
  match values with
  | [] => .error (goStr "no CUE files found in " ++ dir)
  | v :: vs => unifyAll v vs (goStr "failed to unify CUE files in " ++ dir ++ goStr ": ")

/-- Is the loader result an error (and hence carries no schema value)? -/
def exceptIsError {ε α : Type} : Except ε α → Bool
  | .error _ => true
  | .ok _ => false

/-- The message of an error result, empty for a success. -/
def errorTextOf {α : Type} : Except GoStr α → GoStr
  | .error e => e
  | .ok _ => []

/-- A string starts with itself followed by anything. -/
theorem startsList_self_append (p t : GoStr) : startsList p (p ++ t) = true := by
  induction p with
  | nil => rfl
  | cons c cs ih => simp [startsList, ih]

/-- A conflicting field makes `findConflict` report some field. -/
theorem findConflict_of_conflict (f₁ f₂ : List (GoStr × Int)) (k : GoStr) (a b : Int)
    (h₁ : goLookup k f₁ = some a) (h₂ : goLookup k f₂ = some b) (hab : a ≠ b) :
    ∃ k', findConflict f₁ f₂ = some k' := by
  induction f₁ with
  | nil => simp [goLookup] at h₁
  | cons kv rest ih =>
    rw [goLookup] at h₁
    by_cases hk : kv.1 = k
    · subst hk
      rw [if_pos rfl] at h₁
      have ha : kv.2 = a := Option.some.inj h₁
      have hne : ¬ b = kv.2 := by
        rw [ha]
        exact fun h => hab h.symm
      exact ⟨kv.1, by simp [findConflict, h₂, hne]⟩
    · rw [if_neg hk] at h₁
      obtain ⟨k', hk'⟩ := ih h₁
      cases hw : goLookup kv.1 f₂ with
      | none => exact ⟨k', by simp [findConflict, hw, hk']⟩
      | some w =>
        by_cases hwv : w = kv.2
        · exact ⟨k', by simp [findConflict, hw, hwv, hk']⟩
        · exact ⟨kv.1, by simp [findConflict, hw, hwv]⟩

/-- C3: two loaded sources assigning different concrete values to the
same field make the whole load fail — `LoadPaths` over both, and the flat
directory fallback over both files, return a unification error and no
schema value. -/
theorem conflicting_sources_fail_unification
    (f₁ f₂ : List (GoStr × Int)) (k dir : GoStr) (a b : Int)
    (h₁ : goLookup k f₁ = some a) (h₂ : goLookup k f₂ = some b) (hab : a ≠ b) :
    exceptIsError (LoadPaths [.struct f₁, .struct f₂]) = true ∧
    startsList (goStr "failed to unify values: ")
      (errorTextOf (LoadPaths [.struct f₁, .struct f₂])) = true ∧
    exceptIsError (LoadDirFlat dir [.struct f₁, .struct f₂]) = true := by
  obtain ⟨k', hk'⟩ := findConflict_of_conflict f₁ f₂ k a b h₁ h₂ hab
  have hu : CueValue.unify (.struct f₁) (.struct f₂) =
      .errVal (goStr "conflicting values for field " ++ k') := by
    rw [CueValue.unify, hk']
  refine ⟨?_, ?_, ?_⟩
  · simp [LoadPaths, unifyAll, hu, CueValue.err, exceptIsError]
  · simp only [LoadPaths, unifyAll, hu, CueValue.err, errorTextOf]
    exact startsList_self_append _ _
  · simp [LoadDirFlat, unifyAll, hu, CueValue.err, exceptIsError]

/-- Witness for C3 at the spec's own scenario: one source sets
`port: 8080`, the other `port: 9090`; loading both fails with a
unification error. -/
theorem conflicting_sources_fail_unification_witness :
    exceptIsError (LoadPaths [.struct [(goStr "port", 8080)], .struct [(goStr "port", 9090)]]) = true ∧
    startsList (goStr "failed to unify values: ")
      (errorTextOf (LoadPaths [.struct [(goStr "port", 8080)], .struct [(goStr "port", 9090)]])) = true ∧
    exceptIsError (LoadDirFlat (goStr "config")
      [.struct [(goStr "port", 8080)], .struct [(goStr "port", 9090)]]) = true :=
  conflicting_sources_fail_unification [(goStr "port", 8080)] [(goStr "port", 9090)]
    (goStr "port") (goStr "config") 8080 9090 (by decide) (by decide) (by decide)

/-- A JSON document as `encoding/json` unmarshals it into
`map[string]interface{}`: objects are association lists whose order
models Go's arbitrary map iteration order; numbers are modelled as
integers (their value is opaque to every claim below). -/
inductive Json where
  | null : Json
  | bool (b : Bool) : Json
  | num (n : Int) : Json
  | str (s : GoStr) : Json
  | arr (elems : List Json) : Json
  | obj (fields : List (GoStr × Json)) : Json

/-- Key order on object entries, used by the serializer: `encoding/json`
emits map keys in sorted order. -/
def keyLe (a b : GoStr × Json) : Prop := a.1 ≤ b.1

instance : DecidableRel keyLe := fun a b => inferInstanceAs (Decidable (a.1 ≤ b.1))

instance : IsTotal (GoStr × Json) keyLe := ⟨fun a b => le_total a.1 b.1⟩

instance : IsTrans (GoStr × Json) keyLe := ⟨fun _ _ _ => le_trans⟩

/-- Strict key order, used to show sorted entry lists with distinct keys
are unique. -/
def keyLt (a b : GoStr × Json) : Prop := a.1 < b.1

instance : IsAntisymm (GoStr × Json) keyLt := ⟨fun _ _ h1 h2 => (lt_asymm h1 h2).elim⟩

/-- Sort object entries by key, the canonical order `encoding/json` uses
when marshalling a Go map. -/
def sortPairs (l : List (GoStr × Json)) : List (GoStr × Json) :=
  List.insertionSort keyLe l

mutual

/-- Canonical form of a JSON document: every object's entries sorted by
key, recursively — the shape `json.MarshalIndent` serializes a tree of Go
maps in, independent of map iteration order. -/
def canon : Json → Json
  | .null => .null
  | .bool b => .bool b
  | .num n => .num n
  | .str s => .str s
  | .arr es => .arr (canonList es)
  | .obj fs => .obj (sortPairs (canonPairs fs))

/-- Canonicalize every element of an array. -/
def canonList : List Json → List Json
  | [] => []
  | j :: js => canon j :: canonList js

/-- Canonicalize every value of an object's entry list. -/
def canonPairs : List (GoStr × Json) → List (GoStr × Json)
  | [] => []
  | (k, v) :: kvs => (k, canon v) :: canonPairs kvs

end

/-- Escape one character for a JSON string literal (quote and backslash;
other escapes play no role in the claims). -/
def escapeChar (c : Char) : GoStr :=
  if c = '"' then ['\\', '"'] else if c = '\\' then ['\\', '\\'] else [c]

/-- Escape a whole string for a JSON string literal. -/
def escapeChars (s : GoStr) : GoStr :=
  s.foldr (fun c acc => escapeChar c ++ acc) []

/-- A quoted JSON string literal. -/
def quoteStr (s : GoStr) : GoStr :=
  '"' :: escapeChars s ++ ['"']

mutual

/-- Byte output of the marshalling step: a deterministic rendering of a
canonical-form document (indentation whitespace is omitted — it is fixed
text that plays no role in any claim). -/
def serialize : Json → GoStr
  | .null => goStr "null"
  | .bool true => goStr "true"
  | .bool false => goStr "false"
  | .num n => goStr (toString n)
  | .str s => quoteStr s
  | .arr es => '[' :: serializeElems es ++ [']']
  | .obj fs => '\x7b' :: serializeFields fs ++ ['\x7d']

/-- Comma-separated rendering of array elements. -/
def serializeElems : List Json → GoStr
  | [] => []
  | [j] => serialize j
  | j :: rest => serialize j ++ ',' :: serializeElems rest

/-- Comma-separated rendering of object entries. -/
def serializeFields : List (GoStr × Json) → GoStr
  | [] => []
  | [(k, v)] => quoteStr k ++ ':' :: serialize v
  | (k, v) :: rest => quoteStr k ++ ':' :: serialize v ++ ',' :: serializeFields rest

end

/-- The body of `extractDefinitions`'s loop for one entry: an entry whose
key has the `#` marker (`len(key) > 0 && key[0] == '#'`) is rebound under
`key[1:]`; other entries are not definitions. -/
def stripPair (kv : GoStr × Json) : Option (GoStr × Json) :=
  if hasDefMarker kv.1 then some (kv.1.tail, kv.2) else none

/-- Embedding of `extractDefinitions` (jsonschema generator): collect
every `#`-keyed entry of the object under its key with the marker
stripped.  (In Go the map built this way is returned.) -/
def extractDefinitions (obj : List (GoStr × Json)) : List (GoStr × Json) :=
  obj.filterMap stripPair

/-- What `extractDefinitions` leaves behind in the object it mutates:
the Go code deletes every `#`-keyed entry from `obj`, so the properties
map keeps exactly the unmarked entries. -/
def remainingProps (obj : List (GoStr × Json)) : List (GoStr × Json) :=
  obj.filter fun kv => !(hasDefMarker kv.1)

/-- The generation context as the jsonschema generator reads it: the
top-level JSON object its schema value marshals to, and the project
name from the configuration. -/
structure Context where
  obj : List (GoStr × Json)
  name : GoStr

/-- The `schema` map literal built by `Generator.Generate` (jsonschema):
the fixed draft URI, the project id URI, title, type, the properties
object after definition extraction, and the extracted definitions. -/
def schemaEnvelope (ctx : Context) : List (GoStr × Json) :=
  [(goStr "$schema", .str (goStr "https://json-schema.org/draft/2020-12/schema")),
   (goStr "$id", .str (goStr "https://platosl.org/schemas/" ++ ctx.name)),
   (goStr "title", .str ctx.name),
   (goStr "type", .str (goStr "object")),
   (goStr "properties", .obj (remainingProps ctx.obj)),
   (goStr "definitions", .obj (extractDefinitions ctx.obj))]

/-- Embedding of `Generator.Generate` (jsonschema): build the envelope
map and marshal it — `json.MarshalIndent` renders the map tree with keys
in sorted order at every level. -/
def Generate (ctx : Context) : GoStr :=
  serialize (canon (.obj (schemaEnvelope ctx)))

/-- Canonicalize one object entry: the key is kept, the value is put in
canonical form. -/
def canonPair (kv : GoStr × Json) : GoStr × Json := (kv.1, canon kv.2)

/-- `canonPairs` is `map canonPair`. -/
theorem canonPairs_eq_map (l : List (GoStr × Json)) : canonPairs l = l.map canonPair := by
  induction l with
  | nil => simp [canonPairs]
  | cons kv rest ih =>
    obtain ⟨k, v⟩ := kv
    simp [canonPairs, canonPair, ih]

/-- Unfolding of `canon` on an object. -/
theorem canon_obj (fs : List (GoStr × Json)) :
    canon (.obj fs) = .obj (sortPairs (fs.map canonPair)) := by
  rw [canon, canonPairs_eq_map]

/-- A key-sorted entry list with pairwise-distinct keys is strictly
key-sorted. -/
theorem sorted_keyLt {l : List (GoStr × Json)} (hs : List.Sorted keyLe l)
    (hnd : (l.map Prod.fst).Nodup) : List.Sorted keyLt l := by
  have hne : l.Pairwise fun a b => a.1 ≠ b.1 := List.pairwise_map.mp hnd
  exact (List.Pairwise.and hs hne).imp fun h => lt_of_le_of_ne h.1 h.2

/-- Sorting by key is invariant under permutation of an entry list with
distinct keys: the serializer output cannot depend on map iteration
order. -/
theorem sortPairs_eq_of_perm {l₁ l₂ : List (GoStr × Json)} (h : l₁.Perm l₂)
    (hnd : (l₁.map Prod.fst).Nodup) : sortPairs l₁ = sortPairs l₂ := by
  have hp₁ := List.perm_insertionSort keyLe l₁
  have hp₂ := List.perm_insertionSort keyLe l₂
  have hperm : (sortPairs l₁).Perm (sortPairs l₂) := (hp₁.trans h).trans hp₂.symm
  have hnd₂ : (l₂.map Prod.fst).Nodup := ((h.map Prod.fst).nodup_iff).mp hnd
  have hnd₁s : ((sortPairs l₁).map Prod.fst).Nodup := ((hp₁.map Prod.fst).nodup_iff).mpr hnd
  have hnd₂s : ((sortPairs l₂).map Prod.fst).Nodup := ((hp₂.map Prod.fst).nodup_iff).mpr hnd₂
  exact List.eq_of_perm_of_sorted hperm
    (sorted_keyLt (List.sorted_insertionSort keyLe l₁) hnd₁s)
    (sorted_keyLt (List.sorted_insertionSort keyLe l₂) hnd₂s)

/-- Canonicalizing entries commutes with dropping the marked ones. -/
theorem map_canonPair_filter (obj : List (GoStr × Json)) :
    (remainingProps obj).map canonPair =
      (obj.map canonPair).filter fun kv => !(hasDefMarker kv.1) := by
  rw [remainingProps, List.filter_map]
  congr 1

/-- `stripPair` only looks at the key, so it commutes with `canonPair`. -/
theorem stripPair_canonPair (kv : GoStr × Json) :
    stripPair (canonPair kv) = (stripPair kv).map canonPair := by
  obtain ⟨k, v⟩ := kv
  by_cases h : hasDefMarker k = true
  · simp [stripPair, canonPair, h]
  · simp [stripPair, canonPair, h]

/-- Canonicalizing entries commutes with definition extraction. -/
theorem map_canonPair_filterMap (obj : List (GoStr × Json)) :
    (extractDefinitions obj).map canonPair = (obj.map canonPair).filterMap stripPair := by
  rw [extractDefinitions, List.map_filterMap, List.filterMap_map]
  congr 1
  funext kv
  exact (stripPair_canonPair kv).symm

/-- Canonicalizing entries keeps the key list. -/
theorem keys_map_canonPair (l : List (GoStr × Json)) :
    (l.map canonPair).map Prod.fst = l.map Prod.fst := by
  rw [List.map_map]
  rfl

/-- A string carries the definition marker exactly when it is `#`
followed by some tail. -/
theorem hasDefMarker_iff (l : GoStr) : hasDefMarker l = true ↔ ∃ t, l = '#' :: t := by
  cases l with
  | nil => simp [hasDefMarker]
  | cons c cs =>
    constructor
    · intro h
      have hc : c = '#' := by
        have := h
        simp [hasDefMarker] at this
        exact this
      exact ⟨cs, by rw [hc]⟩
    · rintro ⟨t, ht⟩
      have hc : c = '#' := (List.cons.injEq c cs '#' t).mp ht |>.1
      simp [hasDefMarker, hc]

/-- The key of a `stripPair` survivor, as a function of the key alone. -/
def stripKey (k : GoStr) : Option GoStr :=
  if hasDefMarker k then some k.tail else none

/-- The keys of the extracted definitions are the stripped marked keys. -/
theorem keys_extractDefinitions (obj : List (GoStr × Json)) :
    (extractDefinitions obj).map Prod.fst = (obj.map Prod.fst).filterMap stripKey := by
  induction obj with
  | nil => rfl
  | cons kv rest ih =>
    by_cases h : hasDefMarker kv.1 = true
    · simp [extractDefinitions, List.filterMap_cons, stripPair, stripKey, h] at ih ⊢
      exact ih
    · simp [extractDefinitions, List.filterMap_cons, stripPair, stripKey, h] at ih ⊢
      exact ih

/-- Filtering preserves distinctness of the properties keys. -/
theorem nodup_keys_remainingProps {obj : List (GoStr × Json)}
    (h : (obj.map Prod.fst).Nodup) : ((remainingProps obj).map Prod.fst).Nodup :=
  h.sublist ((List.filter_sublist _).map Prod.fst)

/-- Stripping the marker is injective on marked keys, so the extracted
definitions keep distinct keys. -/
theorem nodup_keys_extractDefinitions {obj : List (GoStr × Json)}
    (h : (obj.map Prod.fst).Nodup) : ((extractDefinitions obj).map Prod.fst).Nodup := by
  rw [keys_extractDefinitions]
  refine List.Nodup.filterMap ?_ h
  intro a a' b hb hb'
  by_cases ha : hasDefMarker a = true
  · by_cases ha' : hasDefMarker a' = true
    · rw [stripKey, if_pos ha] at hb
      rw [stripKey, if_pos ha'] at hb'
      obtain ⟨t, rfl⟩ := (hasDefMarker_iff a).mp ha
      obtain ⟨t', rfl⟩ := (hasDefMarker_iff a').mp ha'
      simp only [Option.mem_def, Option.some_inj, List.tail_cons] at hb hb'
      rw [hb, hb']
    · rw [stripKey, if_neg ha'] at hb'
      exact absurd hb' (by simp)
  · rw [stripKey, if_neg ha] at hb
    exact absurd hb (by simp)

/-- A parsed schema object in which a stripped definition name collides
with an ordinary property name. -/
def collisionObj : List (GoStr × Json) :=
  [(goStr "#foo", Json.num 1), (goStr "foo", Json.num 2)]

/-- C2 fails as universally stated: the two output objects need not be
disjoint.  On `{#foo: 1, foo: 2}` the definition `#foo` is stripped to
`foo`, so the key `foo` ends up in the definitions object and — as the
distinct ordinary field — in the properties object as well. -/
theorem definitions_properties_collision_counterexample :
    extractDefinitions collisionObj = [(goStr "foo", Json.num 1)] ∧
    remainingProps collisionObj = [(goStr "foo", Json.num 2)] ∧
    goStr "foo" ∈ (extractDefinitions collisionObj).map Prod.fst ∧
    goStr "foo" ∈ (remainingProps collisionObj).map Prod.fst := by
  refine ⟨rfl, rfl, by decide, by decide⟩

/-- C2 amended: every `#`-prefixed key is moved (with the marker
stripped) into the definitions object and removed from the properties
object, so no `#`-prefixed key survives in properties and no definition
field itself appears in both; but a stripped definition name may coincide
with a distinct ordinary property's name, so the two objects' key sets
need not be disjoint. -/
theorem definitions_extraction_exclusion (obj : List (GoStr × Json)) :
    (∀ kv ∈ remainingProps obj, hasDefMarker kv.1 = false) ∧
    (∀ kv ∈ obj, hasDefMarker kv.1 = true →
      (kv.1.tail, kv.2) ∈ extractDefinitions obj ∧ kv ∉ remainingProps obj) := by
  constructor
  · intro kv hkv
    rw [remainingProps] at hkv
    have h := List.of_mem_filter hkv
    simpa using h
  · intro kv hkv hmark
    constructor
    · rw [extractDefinitions]
      refine List.mem_filterMap.mpr ⟨kv, hkv, ?_⟩
      rw [stripPair, if_pos hmark]
    · intro hcontra
      rw [remainingProps] at hcontra
      have h := List.of_mem_filter hcontra
      simp [hmark] at h

/-- Witness for C2 (amended) on a one-definition object: `#Person` lands
in the definitions as `Person` and is gone from the properties. -/
theorem definitions_extraction_exclusion_witness :
    (goStr "Person", Json.num 1) ∈ extractDefinitions [(goStr "#Person", Json.num 1)] ∧
    (goStr "#Person", Json.num 1) ∉ remainingProps [(goStr "#Person", Json.num 1)] :=
  (definitions_extraction_exclusion [(goStr "#Person", Json.num 1)]).2
    (goStr "#Person", Json.num 1) (List.mem_singleton.mpr rfl) (by decide)

/-- C7: the envelope map built by the jsonschema generator has exactly
the six contracted fields — the fixed draft URI under `$schema`, the
fixed host's per-project URI `https://platosl.org/schemas/<name>` under
`$id`, the project name under `title`, `"object"` under `type`, the
ordinary fields under `properties` and the extracted definition fields
under `definitions` — and the generator's byte output is that map,
marshalled. -/
theorem generate_envelope_exact (ctx : Context) :
    (schemaEnvelope ctx).map Prod.fst =
      [goStr "$schema", goStr "$id", goStr "title", goStr "type",
       goStr "properties", goStr "definitions"] ∧
    goLookup (goStr "$schema") (schemaEnvelope ctx) =
      some (.str (goStr "https://json-schema.org/draft/2020-12/schema")) ∧
    goLookup (goStr "$id") (schemaEnvelope ctx) =
      some (.str (goStr "https://platosl.org/schemas/" ++ ctx.name)) ∧
    goLookup (goStr "title") (schemaEnvelope ctx) = some (.str ctx.name) ∧
    goLookup (goStr "type") (schemaEnvelope ctx) = some (.str (goStr "object")) ∧
    goLookup (goStr "properties") (schemaEnvelope ctx) =
      some (.obj (remainingProps ctx.obj)) ∧
    goLookup (goStr "definitions") (schemaEnvelope ctx) =
      some (.obj (extractDefinitions ctx.obj)) ∧
    Generate ctx = serialize (canon (.obj (schemaEnvelope ctx))) :=
  ⟨rfl, rfl, rfl, rfl, rfl, rfl, rfl, rfl⟩

/-- C6: `Generate` is a pure, deterministic function of its context —
two runs over the same project name and the same parsed object (equal as
a map: entry lists that are permutations of one another with equal
canonical values and distinct keys) produce byte-identical output,
whatever iteration order Go's maps exhibit on each run. -/
theorem generate_deterministic (c₁ c₂ : Context)
    (hname : c₁.name = c₂.name)
    (hobj : (c₁.obj.map canonPair).Perm (c₂.obj.map canonPair))
    (hnd₁ : (c₁.obj.map Prod.fst).Nodup) :
    Generate c₁ = Generate c₂ := by
  have hprops : canon (.obj (remainingProps c₁.obj)) =
      canon (.obj (remainingProps c₂.obj)) := by
    rw [canon_obj, canon_obj]
    congr 1
    apply sortPairs_eq_of_perm
    · rw [map_canonPair_filter, map_canonPair_filter]
      exact hobj.filter _
    · rw [keys_map_canonPair]
      exact nodup_keys_remainingProps hnd₁
  have hdefs : canon (.obj (extractDefinitions c₁.obj)) =
      canon (.obj (extractDefinitions c₂.obj)) := by
    rw [canon_obj, canon_obj]
    congr 1
    apply sortPairs_eq_of_perm
    · rw [map_canonPair_filterMap, map_canonPair_filterMap]
      exact hobj.filterMap _
    · rw [keys_map_canonPair]
      exact nodup_keys_extractDefinitions hnd₁
  have henv : (schemaEnvelope c₁).map canonPair = (schemaEnvelope c₂).map canonPair := by
    simp only [schemaEnvelope, List.map_cons, List.map_nil, canonPair]
    rw [hname, hprops, hdefs]
  simp only [Generate]
  rw [canon_obj, canon_obj, henv]

/-- One run's view of a two-field object. -/
def ctxA : Context := ⟨[(goStr "a", Json.num 1), (goStr "b", Json.num 2)], goStr "demo"⟩

/-- Another run's view of the same object, with the map's entries
iterated in the opposite order. -/
def ctxB : Context := ⟨[(goStr "b", Json.num 2), (goStr "a", Json.num 1)], goStr "demo"⟩

/-- Witness for C6: the two iteration orders of the same object produce
byte-identical generator output. -/
theorem generate_deterministic_witness : Generate ctxA = Generate ctxB :=
  generate_deterministic ctxA ctxB rfl
    (List.Perm.swap (canonPair (goStr "b", Json.num 2)) (canonPair (goStr "a", Json.num 1)) [])
    (by decide) 
